import Mathlib

/-!
Shallow embedding of the BadgerScholar two-stage RAG system.

The frontend definitions are translated from the TypeScript sources
(`frontend/components/chunks-carousel.tsx`, `frontend/components/search-dialog.tsx`,
`frontend/components/database-status.tsx`, the chat page and the dataset page).
The Python backend services (`rag_service.py`, `fulltext_indexer.py`,
`rag_chunk_retriever.py`, `fulltext_service.py`, the status endpoints) are not
among the available sources — only the README and the frontend callers describe
them — so those operations are modelled from the specification; each such
definition is marked `Modelled from the spec:` in its doc comment.
-/

namespace BadgerScholar

/-- Role of a chat message, from the `Message` interface of the chat page. -/
inductive Role
  | user
  | assistant
deriving DecidableEq, Repr

/-- A coarse-retrieval paper hit as rendered by the chat page (`paper.arxiv_id`,
`paper.title`, `paper.score`).  Similarity scores are modelled as naturals since
only their ordering matters to the embedded operations. -/
structure PaperHit where
  arxiv_id : String
  title : String
  score : Nat
deriving DecidableEq, Repr

/-- A fine-retrieval chunk, as in the `Chunk` interface of `chunks-carousel.tsx`. -/
structure Chunk where
  chunk_id : String
  arxiv_id : String
  text : String
  score : Nat
deriving DecidableEq, Repr

/-- A chat message, from the `Message` interface of the chat page: user messages
carry no papers or chunks, assistant messages may carry both. -/
structure Message where
  role : Role
  content : String
  papers : Option (List PaperHit)
  chunks : Option (List Chunk)
deriving DecidableEq, Repr

/-- Body of a successful response of POST /api/rag/query as consumed by `handleSend`. -/
structure QueryResponse where
  answer : String
  papers : List PaperHit
  chunks : List Chunk
deriving DecidableEq, Repr

/-- The chat-page component state that `handleSend` reads and writes. -/
structure ChatState where
  messages : List Message
  input : String
  loading : Bool
deriving DecidableEq, Repr

/-- The error text `handleSend` appends when the query request fails. -/
def errorText : String := "Sorry, I encountered an error while processing your question."

/-- The guard condition both pages test on user input: the whitespace-trimmed
string is empty.  Embeds the TypeScript falsiness test on `s.trim()`. -/
def trimmedEmpty (s : String) : Bool := s.toList.all Char.isWhitespace

/-- `handleSend` from the chat page.  Guard: return immediately when the trimmed
input is empty or a request is already loading.  Otherwise append the user
message, issue one POST /api/rag/query request, and append either the assistant
answer (on an ok response, `response = some data`) or the fixed error message
(on a non-ok response or network error, `response = none`); either way the
input is cleared and the loading flag ends false.  The second component of the
result counts the query requests issued. -/
def handleSend (st : ChatState) (response : Option QueryResponse) : ChatState × Nat :=
  if trimmedEmpty st.input ∨ st.loading then (st, 0)
  else
    let withUser := st.messages ++
      [{ role := Role.user, content := st.input, papers := none, chunks := none }]
    match response with
    | some data =>
        ({ messages := withUser ++
            [{ role := Role.assistant, content := data.answer,
               papers := some data.papers, chunks := some data.chunks }],
           input := "", loading := false }, 1)
    | none =>
        ({ messages := withUser ++
            [{ role := Role.assistant, content := errorText,
               papers := none, chunks := none }],
           input := "", loading := false }, 1)

/-- `handleNext` of `ChunksCarousel`: advance the current index, wrapping to 0
past the last index.  `len` is `chunks.length`. -/
def handleNext (len i : Nat) : Nat := if i < len - 1 then i + 1 else 0

/-- `handlePrev` of `ChunksCarousel`: step the current index back, wrapping to
the last index at 0.  `len` is `chunks.length`. -/
def handlePrev (len i : Nat) : Nat := if 0 < i then i - 1 else len - 1

/-- `getFulltextColor` from the chat page: CSS class for the fine-index
indexed-paper count. -/
def getFulltextColor (count : Nat) : String :=
  if count < 50 then "text-green-500"
  else if count ≤ 65 then "text-yellow-500"
  else "text-red-500"

/-- `getFulltextIcon` from the chat page, identified by the icon component name
it renders. -/
def getFulltextIcon (count : Nat) : String :=
  if count < 50 then "CheckCircle"
  else if count ≤ 65 then "AlertTriangle"
  else "XCircle"

/-- The three status bands into which the claim says both `getFulltextColor`
and `getFulltextIcon` partition every count. -/
inductive StatusBand
  | green
  | yellow
  | red
deriving DecidableEq, Repr

/-- Band assignment following the claim wording: `count < 50` is green,
`50 ≤ count ≤ 65` is yellow, `count > 65` is red.  This definition follows the
claim, to be compared against the source functions. -/
def claimBand (count : Nat) : StatusBand :=
  if count < 50 then StatusBand.green
  else if 50 ≤ count ∧ count ≤ 65 then StatusBand.yellow
  else StatusBand.red

/-- CSS class associated with each band in the source. -/
def bandColorClass : StatusBand → String
  | StatusBand.green => "text-green-500"
  | StatusBand.yellow => "text-yellow-500"
  | StatusBand.red => "text-red-500"

/-- Icon component associated with each band in the source. -/
def bandIcon : StatusBand → String
  | StatusBand.green => "CheckCircle"
  | StatusBand.yellow => "AlertTriangle"
  | StatusBand.red => "XCircle"

/-- A search hit of GET /api/search as in the `SearchResult` interface of
`search-dialog.tsx` (highlight fields omitted; they play no role in the
embedded control flow). -/
structure SearchResult where
  arxiv_id : String
  title : String
  summary : String
  score : Nat
deriving DecidableEq, Repr

/-- Body of a GET /api/search response, as in the `SearchResponse` interface. -/
structure SearchResponse where
  total : Nat
  page : Nat
  size : Nat
  took : Nat
  results : List SearchResult
deriving DecidableEq, Repr

/-- The search-dialog component state that `performSearch` reads and writes. -/
structure SearchState where
  query : String
  category : String
  author : String
  page : Nat
  loading : Bool
  results : Option SearchResponse
deriving DecidableEq, Repr

/-- `performSearch` from `search-dialog.tsx`.  Guard: return immediately when
the trimmed query is empty.  Otherwise issue one GET /api/search request; on a
successful response store it in `results`, on an error leave `results`
unchanged (the error is only logged); the loading flag ends false either way.
The second component counts the search requests issued. -/
def performSearch (st : SearchState) (response : Option SearchResponse) : SearchState × Nat :=
  if trimmedEmpty st.query then (st, 0)
  else
    match response with
    | some data => ({ st with loading := false, results := some data }, 1)
    | none => ({ st with loading := false }, 1)

/-- Concrete search-dialog state with a request already in flight
(`loading = true`) and a non-empty query. -/
def inFlightSearchState : SearchState :=
  { query := "transformers", category := "", author := "", page := 1,
    loading := true, results := none }

/-- The coarse sync status record, from the `CoarseSyncStatus` interface of the
chat page. -/
structure CoarseSyncStatus where
  mongodb_count : Nat
  chromadb_count : Nat
  in_sync : Bool
deriving DecidableEq, Repr

/-- The fine sync status record, from the `FineSyncStatus` interface of the
chat page. -/
structure FineSyncStatus where
  chromadb_count : Nat
  fulltext_indexed_papers : Nat
  in_sync : Bool
deriving DecidableEq, Repr

/-- The read-only counts the Sync/Status Reporter compares: document-store
count, coarse vector-index count, fine vector-index chunk count, and the count
of papers flagged `fulltext_indexed`. -/
structure BackendCounts where
  mongodb_count : Nat
  coarse_chroma_count : Nat
  fine_chunk_count : Nat
  fulltext_indexed_papers : Nat
deriving DecidableEq, Repr

/-- Modelled from the spec: `coarse_status` of the Sync/Status Reporter (the
GET /api/rag/sync-status endpoint; its service code is not among the sources).
Pure read-side comparison of the document-store count and the coarse
vector-index count; `in_sync` is true iff the two counts are equal; the state
is returned unchanged (no mutation). -/
def coarse_status (st : BackendCounts) : CoarseSyncStatus × BackendCounts :=
  ({ mongodb_count := st.mongodb_count,
     chromadb_count := st.coarse_chroma_count,
     in_sync := st.mongodb_count == st.coarse_chroma_count }, st)

/-- Modelled from the spec: `fine_status` of the Sync/Status Reporter (the
GET /api/rag/sync-status/fulltext endpoint; its service code is not among the
sources).  Pure read-side comparison of the fine-index count and the
fulltext-indexed paper count; `in_sync` is true iff the two counts being
compared are equal; the state is returned unchanged (no mutation). -/
def fine_status (st : BackendCounts) : FineSyncStatus × BackendCounts :=
  ({ chromadb_count := st.fine_chunk_count,
     fulltext_indexed_papers := st.fulltext_indexed_papers,
     in_sync := st.fine_chunk_count == st.fulltext_indexed_papers }, st)

/-- Modelled from the spec: the chunking loop of `fulltext_service.py` (not
among the sources): the cleaned text of length `L` is split into spans
`(start, stop)` of at most `maxLen` characters, each successive span starting
`overlap` characters before the previous span ends (defaults 1500 / 200).
Structural recursion on a fuel argument; fuel `L + 1` suffices because each
step advances the start by `maxLen - overlap ≥ 1` in any configuration with
`overlap < maxLen` (the default one). -/
def chunkGo (maxLen overlap L : Nat) : Nat → Nat → List (Nat × Nat)
  | 0, _ => []
  | fuel + 1, s =>
    if s < L then
      if s + maxLen < L then
        (s, s + maxLen) :: chunkGo maxLen overlap L fuel (s + maxLen - overlap)
      else [(s, L)]
    else []

/-- Chunk spans produced for a cleaned source text of length `L`. -/
def chunkSpans (maxLen overlap L : Nat) : List (Nat × Nat) :=
  chunkGo maxLen overlap L (L + 1) 0

/-- Modelled from the spec: `retrieve_chunks` of `rag_chunk_retriever.py` (not
among the sources): the `top_k` highest-similarity chunks for the question
over the entire fine vector index, in descending similarity order.  The index
is modelled as the list of stored chunks with their similarity scores to the
current question. -/
def retrieve_chunks (index : List Chunk) (top_k : Nat) : List Chunk :=
  (List.insertionSort (fun a b => b.score ≤ a.score) index).take top_k

/-- Chunks of the broad candidate list owned by one of the candidate papers,
in retrieval order. -/
def surviving_chunks (index : List Chunk) (candidate_ids : List String)
    (broad_k : Nat) : List Chunk :=
  (retrieve_chunks index broad_k).filter (fun c => decide (c.arxiv_id ∈ candidate_ids))

/-- Modelled from the spec: the fine-retrieval stage of `rag_service.py` as
shown in the README — retrieve the `broad_k` highest-similarity chunks across
the entire fine index, filter to chunks whose paper identifier is in
`candidate_ids` preserving order, truncate to `final_k`. -/
def fineRetrieve (index : List Chunk) (candidate_ids : List String)
    (broad_k final_k : Nat) : List Chunk :=
  (surviving_chunks index candidate_ids broad_k).take final_k

/-- The result record of the RAG query operation: answer text, cited papers,
cited chunks. -/
structure RagAnswer where
  answer : String
  papers : List PaperHit
  chunks : List Chunk
deriving DecidableEq, Repr

/-- Modelled from the spec: `answer_question` of `rag_service.py` (not among
the sources).  `coarse` is the Coarse Retriever result for the question;
`indexed_ok pid` abstracts whether the on-demand `ensure_indexed` pass for
that coarse paper succeeded (failing papers are dropped from the fine
candidate set); `generate` is the black-box completion service applied to the
retrieved chunks.  The cited papers are the coarse result, the cited chunks
the fine result. -/
def answer_question (coarse : List PaperHit) (indexed_ok : String → Bool)
    (index : List Chunk) (broad_k final_k : Nat)
    (generate : List Chunk → String) : RagAnswer :=
  let candidate_ids := (coarse.filter (fun h => indexed_ok h.arxiv_id)).map PaperHit.arxiv_id
  let fine := fineRetrieve index candidate_ids broad_k final_k
  { answer := generate fine, papers := coarse, chunks := fine }

/-- A paper record as the Full-Text Indexer sees it: canonical identifier,
`fulltext_indexed` flag, and `fulltext_indexed_at` timestamp. -/
structure PaperRec where
  pid : String
  fulltext_indexed : Bool
  fulltext_indexed_at : Option Nat
deriving DecidableEq, Repr

/-- A chunk stored in the Fine Vector Index, keyed by owning paper and a
stable sequence number. -/
structure StoredChunk where
  paper_id : String
  seq : Nat
deriving DecidableEq, Repr

/-- Joint state of the document store, the Fine Vector Index and the logical
clock used to stamp `fulltext_indexed_at`. -/
structure IndexState where
  papers : List PaperRec
  fine : List StoredChunk
  clock : Nat
deriving DecidableEq, Repr

/-- Number of papers with `fulltext_indexed = true`. -/
def countIndexed (l : List PaperRec) : Nat :=
  (l.filter (fun p => p.fulltext_indexed)).length

/-- Set `fulltext_indexed = true` and stamp `fulltext_indexed_at` on the record
with identifier `pid`. -/
def markIndexed (pid : String) (t : Nat) (l : List PaperRec) : List PaperRec :=
  l.map (fun p =>
    if p.pid = pid
    then { p with fulltext_indexed := true, fulltext_indexed_at := some t }
    else p)

/-- Set `fulltext_indexed = false` and clear `fulltext_indexed_at` on the
record with identifier `pid`. -/
def clearIndexed (pid : String) (l : List PaperRec) : List PaperRec :=
  l.map (fun p =>
    if p.pid = pid
    then { p with fulltext_indexed := false, fulltext_indexed_at := none }
    else p)

/-- Timestamp of a record, defaulting to 0 for records never stamped. -/
def tsOf (p : PaperRec) : Nat := p.fulltext_indexed_at.getD 0

/-- The papers eligible as eviction victims: fully indexed and distinct from
the paper just inserted. -/
def evictionCandidates (newPid : String) (l : List PaperRec) : List PaperRec :=
  l.filter (fun p => p.fulltext_indexed && decide (p.pid ≠ newPid))

/-- Modelled from the spec: the eviction step of `fulltext_indexer.py` (not
among the sources): select the indexed paper with the oldest
`fulltext_indexed_at` (excluding the paper just inserted), delete its chunks
from the fine index, set `fulltext_indexed = false` and clear
`fulltext_indexed_at`. -/
def evictOldest (newPid : String) (st : IndexState) : IndexState :=
  match List.argmin tsOf (evictionCandidates newPid st.papers) with
  | none => st
  | some v =>
      { st with papers := clearIndexed v.pid st.papers,
                fine := st.fine.filter (fun c => decide (c.paper_id ≠ v.pid)) }

/-- The indexing pass proper: write the paper's `nchunks` chunks to the fine
index as one unit, set `fulltext_indexed = true`, stamp `fulltext_indexed_at`
with the current clock, and advance the clock. -/
def insertPaper (nchunks : Nat) (pid : String) (st : IndexState) : IndexState :=
  { papers := markIndexed pid st.clock st.papers,
    fine := st.fine ++ (List.range nchunks).map (fun i => { paper_id := pid, seq := i }),
    clock := st.clock + 1 }

/-- Modelled from the spec: `ensure_indexed` of `fulltext_indexer.py` (not
among the sources).  If the paper is unknown or already indexed, return
immediately.  Otherwise run the indexing pass and, if the count of
fully-indexed papers now exceeds the capacity `cap`, evict the one
oldest-indexed other paper. -/
def ensureIndexed (cap nchunks : Nat) (pid : String) (st : IndexState) : IndexState :=
  match st.papers.find? (fun q => decide (q.pid = pid)) with
  | none => st
  | some p =>
      if p.fulltext_indexed then st
      else
        let st1 := insertPaper nchunks pid st
        if cap < countIndexed st1.papers then evictOldest pid st1 else st1

/-- A sequence of `ensure_indexed` calls, one per listed paper identifier. -/
def ensureIndexedSeq (cap nchunks : Nat) (pids : List String) (st : IndexState) : IndexState :=
  pids.foldl (fun s q => ensureIndexed cap nchunks q s) st

/-- The eviction behaviour claimed for an insertion that pushes the indexed
count over capacity: a single victim, the oldest-stamped indexed paper other
than the one just inserted, has its chunks deleted, its flag reset and its
timestamp cleared, and the indexed count returns to its pre-insertion value. -/
def evictionOutcome (cap nchunks : Nat) (pid : String) (st : IndexState) : Prop :=
  ∃ v : PaperRec,
    v ∈ st.papers ∧ v.fulltext_indexed = true ∧ v.pid ≠ pid ∧
    (∀ q ∈ st.papers, q.fulltext_indexed = true → q.pid ≠ pid → tsOf v ≤ tsOf q) ∧
    ensureIndexed cap nchunks pid st =
      { papers := clearIndexed v.pid (markIndexed pid st.clock st.papers),
        fine := (st.fine ++ (List.range nchunks).map
                  (fun i => ({ paper_id := pid, seq := i } : StoredChunk))).filter
                  (fun c => decide (c.paper_id ≠ v.pid)),
        clock := st.clock + 1 } ∧
    (∀ r ∈ (ensureIndexed cap nchunks pid st).papers,
        r.pid = v.pid → r.fulltext_indexed = false ∧ r.fulltext_indexed_at = none) ∧
    (∀ c ∈ (ensureIndexed cap nchunks pid st).fine, c.paper_id ≠ v.pid) ∧
    countIndexed (ensureIndexed cap nchunks pid st).papers = countIndexed st.papers

/-- A concrete three-paper store with nothing indexed yet. -/
def freshIndexState : IndexState :=
  { papers := [{ pid := "a", fulltext_indexed := false, fulltext_indexed_at := none },
               { pid := "b", fulltext_indexed := false, fulltext_indexed_at := none },
               { pid := "c", fulltext_indexed := false, fulltext_indexed_at := none }],
    fine := [], clock := 0 }

/-- A concrete store at capacity two with papers "a" and "b" indexed (in that
order) and "c" not yet indexed. -/
def fullIndexState : IndexState :=
  { papers := [{ pid := "a", fulltext_indexed := true, fulltext_indexed_at := some 0 },
               { pid := "b", fulltext_indexed := true, fulltext_indexed_at := some 1 },
               { pid := "c", fulltext_indexed := false, fulltext_indexed_at := none }],
    fine := [{ paper_id := "a", seq := 0 }, { paper_id := "b", seq := 0 }], clock := 5 }

/-- Concrete backend counts with coarse stores in sync and fine stores not. -/
def exampleCounts : BackendCounts :=
  { mongodb_count := 4, coarse_chroma_count := 4,
    fine_chunk_count := 10, fulltext_indexed_papers := 3 }

/-- Concrete chat state whose input is whitespace only. -/
def blankChatState : ChatState := { messages := [], input := " ", loading := false }

/-- Concrete chat state with a request already in flight. -/
def busyChatState : ChatState := { messages := [], input := "hi", loading := true }

/-- Concrete search-dialog state whose query is whitespace only. -/
def blankSearchState : SearchState :=
  { query := "  ", category := "", author := "", page := 1,
    loading := false, results := none }

/-- A concrete fine index of three chunks across two papers. -/
def exampleFineIndex : List Chunk :=
  [{ chunk_id := "p1_chunk0", arxiv_id := "p1", text := "alpha", score := 9 },
   { chunk_id := "p2_chunk0", arxiv_id := "p2", text := "beta", score := 7 },
   { chunk_id := "p1_chunk1", arxiv_id := "p1", text := "gamma", score := 5 }]

/-! Helper lemmas about the Full-Text Indexer state. -/

theorem map_pid_markIndexed (pid : String) (t : Nat) (l : List PaperRec) :
    (markIndexed pid t l).map PaperRec.pid = l.map PaperRec.pid := by
  induction l with
  | nil => rfl
  | cons a l ih =>
      simp only [markIndexed, List.map_cons] at ih ⊢
      by_cases h : a.pid = pid
      · simp [h, ih]
      · simp [h, ih]

theorem map_pid_clearIndexed (pid : String) (l : List PaperRec) :
    (clearIndexed pid l).map PaperRec.pid = l.map PaperRec.pid := by
  induction l with
  | nil => rfl
  | cons a l ih =>
      simp only [clearIndexed, List.map_cons] at ih ⊢
      by_cases h : a.pid = pid
      · simp [h, ih]
      · simp [h, ih]

theorem markIndexed_eq_self (pid : String) (t : Nat) (l : List PaperRec)
    (h : ∀ q ∈ l, q.pid ≠ pid) : markIndexed pid t l = l := by
  induction l with
  | nil => rfl
  | cons a l ih =>
      have ha : a.pid ≠ pid := h a (List.mem_cons_self a l)
      have ht := ih (fun q hq => h q (List.mem_cons_of_mem a hq))
      simp only [markIndexed, List.map_cons, if_neg ha] at ht ⊢
      rw [ht]

theorem clearIndexed_eq_self (pid : String) (l : List PaperRec)
    (h : ∀ q ∈ l, q.pid ≠ pid) : clearIndexed pid l = l := by
  induction l with
  | nil => rfl
  | cons a l ih =>
      have ha : a.pid ≠ pid := h a (List.mem_cons_self a l)
      have ht := ih (fun q hq => h q (List.mem_cons_of_mem a hq))
      simp only [clearIndexed, List.map_cons, if_neg ha] at ht ⊢
      rw [ht]

theorem countIndexed_markIndexed (pid : String) (t : Nat) (l : List PaperRec)
    (hnd : List.Nodup (l.map PaperRec.pid)) (p : PaperRec) (hp : p ∈ l)
    (hppid : p.pid = pid) (hpi : p.fulltext_indexed = false) :
    countIndexed (markIndexed pid t l) = countIndexed l + 1 := by
  induction l with
  | nil => cases hp
  | cons a l ih =>
      simp only [List.map_cons, List.nodup_cons] at hnd
      obtain ⟨hna, hndl⟩ := hnd
      rcases List.mem_cons.mp hp with rfl | hpl
      · have hrest : ∀ q ∈ l, q.pid ≠ pid := by
          intro q hq hqe
          exact hna (hppid ▸ hqe ▸ List.mem_map_of_mem PaperRec.pid hq)
        rw [show markIndexed pid t (p :: l) =
              ({ p with fulltext_indexed := true, fulltext_indexed_at := some t }
                :: markIndexed pid t l) by
              simp [markIndexed, hppid]]
        rw [markIndexed_eq_self pid t l hrest]
        simp [countIndexed, List.filter_cons, hpi]
      · have ha : a.pid ≠ pid := by
          intro he
          exact hna (he ▸ hppid ▸ List.mem_map_of_mem PaperRec.pid hpl)
        have ht := ih hndl hpl
        rw [show markIndexed pid t (a :: l) = a :: markIndexed pid t l by
              simp [markIndexed, ha]]
        by_cases hif : a.fulltext_indexed = true
        · simp [countIndexed, List.filter_cons, hif] at ht ⊢
          omega
        · simp at hif
          simp [countIndexed, List.filter_cons, hif] at ht ⊢
          omega

theorem countIndexed_clearIndexed (vid : String) (l : List PaperRec)
    (hnd : List.Nodup (l.map PaperRec.pid)) (v : PaperRec) (hv : v ∈ l)
    (hvid : v.pid = vid) (hvi : v.fulltext_indexed = true) :
    countIndexed (clearIndexed vid l) + 1 = countIndexed l := by
  induction l with
  | nil => cases hv
  | cons a l ih =>
      simp only [List.map_cons, List.nodup_cons] at hnd
      obtain ⟨hna, hndl⟩ := hnd
      rcases List.mem_cons.mp hv with rfl | hvl
      · have hrest : ∀ q ∈ l, q.pid ≠ vid := by
          intro q hq hqe
          exact hna (hvid ▸ hqe ▸ List.mem_map_of_mem PaperRec.pid hq)
        rw [show clearIndexed vid (v :: l) =
              ({ v with fulltext_indexed := false, fulltext_indexed_at := none }
                :: clearIndexed vid l) by
              simp [clearIndexed, hvid]]
        rw [clearIndexed_eq_self vid l hrest]
        simp [countIndexed, List.filter_cons, hvi]
      · have ha : a.pid ≠ vid := by
          intro he
          exact hna (he ▸ hvid ▸ List.mem_map_of_mem PaperRec.pid hvl)
        have ht := ih hndl hvl
        rw [show clearIndexed vid (a :: l) = a :: clearIndexed vid l by
              simp [clearIndexed, ha]]
        by_cases hif : a.fulltext_indexed = true
        · simp [countIndexed, List.filter_cons, hif] at ht ⊢
          omega
        · simp at hif
          simp [countIndexed, List.filter_cons, hif] at ht ⊢
          omega

theorem mem_of_mem_markIndexed {pid : String} {t : Nat} {l : List PaperRec}
    {q : PaperRec} (hq : q ∈ markIndexed pid t l) (hne : q.pid ≠ pid) : q ∈ l := by
  simp only [markIndexed, List.mem_map] at hq
  obtain ⟨a, ha, hfa⟩ := hq
  by_cases h : a.pid = pid
  · rw [if_pos h] at hfa
    exact absurd (by rw [← hfa]; exact h) hne
  · rw [if_neg h] at hfa
    exact hfa ▸ ha

theorem mem_markIndexed_of_mem {pid : String} {t : Nat} {l : List PaperRec}
    {q : PaperRec} (hq : q ∈ l) (hne : q.pid ≠ pid) : q ∈ markIndexed pid t l := by
  simp only [markIndexed, List.mem_map]
  exact ⟨q, hq, by rw [if_neg hne]⟩

theorem clearIndexed_fields {vid : String} {l : List PaperRec} {r : PaperRec}
    (hr : r ∈ clearIndexed vid l) (hrv : r.pid = vid) :
    r.fulltext_indexed = false ∧ r.fulltext_indexed_at = none := by
  simp only [clearIndexed, List.mem_map] at hr
  obtain ⟨a, ha, hfa⟩ := hr
  by_cases h : a.pid = vid
  · rw [if_pos h] at hfa
    rw [← hfa]
    exact ⟨rfl, rfl⟩
  · rw [if_neg h] at hfa
    exact absurd (hfa ▸ hrv) h

theorem find?_pid_eq (pid : String) (l : List PaperRec)
    (hnd : List.Nodup (l.map PaperRec.pid)) (p : PaperRec) (hp : p ∈ l)
    (hppid : p.pid = pid) :
    l.find? (fun q => decide (q.pid = pid)) = some p := by
  induction l with
  | nil => cases hp
  | cons a l ih =>
      simp only [List.map_cons, List.nodup_cons] at hnd
      obtain ⟨hna, hndl⟩ := hnd
      by_cases ha : a.pid = pid
      · have hap : a = p := by
          rcases List.mem_cons.mp hp with rfl | hpl
          · rfl
          · exact absurd (ha ▸ hppid ▸ List.mem_map_of_mem PaperRec.pid hpl) hna
        rw [List.find?_cons_of_pos _ (by simp [ha])]
        rw [hap]
      · rcases List.mem_cons.mp hp with rfl | hpl
        · exact absurd hppid ha
        · rw [List.find?_cons_of_neg _ (by simp [ha])]
          exact ih hndl hpl

theorem filter_length_le_add {α : Type} (p q r : α → Bool) (l : List α)
    (h : ∀ x ∈ l, p x = true → q x = true ∨ r x = true) :
    (l.filter p).length ≤ (l.filter q).length + (l.filter r).length := by
  induction l with
  | nil => simp
  | cons a l ih =>
      have ht := ih (fun x hx => h x (List.mem_cons_of_mem a hx))
      have ha := h a (List.mem_cons_self a l)
      simp only [List.filter_cons]
      cases hp : p a <;> cases hq : q a <;> cases hr : r a <;>
        simp_all <;> omega

theorem length_filter_pid_le_one (pid : String) (l : List PaperRec)
    (hnd : List.Nodup (l.map PaperRec.pid)) :
    (l.filter (fun x => decide (x.pid = pid))).length ≤ 1 := by
  induction l with
  | nil => simp
  | cons a l ih =>
      simp only [List.map_cons, List.nodup_cons] at hnd
      obtain ⟨hna, hndl⟩ := hnd
      by_cases ha : a.pid = pid
      · have hnil : l.filter (fun x => decide (x.pid = pid)) = [] := by
          rw [List.filter_eq_nil_iff]
          intro x hx
          simp only [decide_eq_true_eq]
          intro he
          exact hna (ha ▸ he ▸ List.mem_map_of_mem PaperRec.pid hx)
        simp [List.filter_cons, ha, hnil]
      · simp only [List.filter_cons, decide_eq_true_eq, if_neg ha]
        exact ih hndl

theorem ensureIndexed_not_found (cap n : Nat) (pid : String) (st : IndexState)
    (h : st.papers.find? (fun q => decide (q.pid = pid)) = none) :
    ensureIndexed cap n pid st = st := by
  unfold ensureIndexed
  rw [h]

theorem ensureIndexed_already (cap n : Nat) (pid : String) (st : IndexState) (p : PaperRec)
    (h : st.papers.find? (fun q => decide (q.pid = pid)) = some p)
    (hpi : p.fulltext_indexed = true) :
    ensureIndexed cap n pid st = st := by
  unfold ensureIndexed
  rw [h]
  simp [hpi]

theorem ensureIndexed_insert_over (cap n : Nat) (pid : String) (st : IndexState) (p : PaperRec)
    (h : st.papers.find? (fun q => decide (q.pid = pid)) = some p)
    (hpi : p.fulltext_indexed = false)
    (hover : cap < countIndexed (insertPaper n pid st).papers) :
    ensureIndexed cap n pid st = evictOldest pid (insertPaper n pid st) := by
  unfold ensureIndexed
  rw [h]
  simp [hpi, hover]

theorem ensureIndexed_insert_fit (cap n : Nat) (pid : String) (st : IndexState) (p : PaperRec)
    (h : st.papers.find? (fun q => decide (q.pid = pid)) = some p)
    (hpi : p.fulltext_indexed = false)
    (hfit : ¬ cap < countIndexed (insertPaper n pid st).papers) :
    ensureIndexed cap n pid st = insertPaper n pid st := by
  unfold ensureIndexed
  rw [h]
  simp [hpi, hfit]

theorem evictOldest_none (pid : String) (st : IndexState)
    (h : List.argmin tsOf (evictionCandidates pid st.papers) = none) :
    evictOldest pid st = st := by
  unfold evictOldest
  rw [h]

theorem evictOldest_some (pid : String) (st : IndexState) (v : PaperRec)
    (h : List.argmin tsOf (evictionCandidates pid st.papers) = some v) :
    evictOldest pid st =
      { st with papers := clearIndexed v.pid st.papers,
                fine := st.fine.filter (fun c => decide (c.paper_id ≠ v.pid)) } := by
  unfold evictOldest
  rw [h]

theorem mem_evictionCandidates {newPid : String} {l : List PaperRec} {v : PaperRec} :
    v ∈ evictionCandidates newPid l ↔
      v ∈ l ∧ v.fulltext_indexed = true ∧ v.pid ≠ newPid := by
  simp [evictionCandidates, List.mem_filter, and_assoc]

theorem evictionCandidates_ne_nil (pid : String) (m : List PaperRec)
    (hnd : List.Nodup (m.map PaperRec.pid)) (h2 : 2 ≤ countIndexed m) :
    evictionCandidates pid m ≠ [] := by
  have hsplit : countIndexed m ≤ (evictionCandidates pid m).length +
      (m.filter (fun x => decide (x.pid = pid))).length := by
    apply filter_length_le_add
    intro x _ hx
    by_cases hp : x.pid = pid
    · exact Or.inr (by simp [hp])
    · exact Or.inl (by simp [evictionCandidates] at *; simp [hx, hp])
  have hone := length_filter_pid_le_one pid m hnd
  intro hnil
  rw [hnil] at hsplit
  simp at hsplit
  omega

theorem countIndexed_markIndexed_le (pid : String) (t : Nat) (l : List PaperRec)
    (hnd : List.Nodup (l.map PaperRec.pid)) :
    countIndexed (markIndexed pid t l) ≤ countIndexed l + 1 := by
  induction l with
  | nil => simp [markIndexed, countIndexed]
  | cons a l ih =>
      simp only [List.map_cons, List.nodup_cons] at hnd
      obtain ⟨hna, hndl⟩ := hnd
      by_cases ha : a.pid = pid
      · have hrest : ∀ q ∈ l, q.pid ≠ pid := by
          intro q hq hqe
          exact hna (ha ▸ hqe ▸ List.mem_map_of_mem PaperRec.pid hq)
        rw [show markIndexed pid t (a :: l) =
              ({ a with fulltext_indexed := true, fulltext_indexed_at := some t }
                :: markIndexed pid t l) by
              simp [markIndexed, ha]]
        rw [markIndexed_eq_self pid t l hrest]
        by_cases hif : a.fulltext_indexed = true
        · simp [countIndexed, List.filter_cons, hif]
        · simp at hif
          simp [countIndexed, List.filter_cons, hif]
      · have ht := ih hndl
        rw [show markIndexed pid t (a :: l) = a :: markIndexed pid t l by
              simp [markIndexed, ha]]
        by_cases hif : a.fulltext_indexed = true
        · simp [countIndexed, List.filter_cons, hif] at ht ⊢
          omega
        · simp at hif
          simp [countIndexed, List.filter_cons, hif] at ht ⊢
          omega

theorem countIndexed_insertPaper (n : Nat) (pid : String) (st : IndexState)
    (hnd : List.Nodup (st.papers.map PaperRec.pid)) (p : PaperRec) (hp : p ∈ st.papers)
    (hppid : p.pid = pid) (hpi : p.fulltext_indexed = false) :
    countIndexed (insertPaper n pid st).papers = countIndexed st.papers + 1 :=
  countIndexed_markIndexed pid st.clock st.papers hnd p hp hppid hpi

theorem map_pid_insertPaper (n : Nat) (pid : String) (st : IndexState) :
    (insertPaper n pid st).papers.map PaperRec.pid = st.papers.map PaperRec.pid :=
  map_pid_markIndexed pid st.clock st.papers

theorem map_pid_evictOldest (pid : String) (st : IndexState) :
    (evictOldest pid st).papers.map PaperRec.pid = st.papers.map PaperRec.pid := by
  cases h : List.argmin tsOf (evictionCandidates pid st.papers) with
  | none => rw [evictOldest_none pid st h]
  | some v =>
      rw [evictOldest_some pid st v h]
      exact map_pid_clearIndexed v.pid st.papers

theorem map_pid_ensureIndexed (cap n : Nat) (pid : String) (st : IndexState) :
    (ensureIndexed cap n pid st).papers.map PaperRec.pid = st.papers.map PaperRec.pid := by
  cases hfind : st.papers.find? (fun q => decide (q.pid = pid)) with
  | none => rw [ensureIndexed_not_found cap n pid st hfind]
  | some p =>
      by_cases hpi : p.fulltext_indexed = true
      · rw [ensureIndexed_already cap n pid st p hfind hpi]
      · rw [Bool.not_eq_true] at hpi
        by_cases hover : cap < countIndexed (insertPaper n pid st).papers
        · rw [ensureIndexed_insert_over cap n pid st p hfind hpi hover,
              map_pid_evictOldest, map_pid_insertPaper]
        · rw [ensureIndexed_insert_fit cap n pid st p hfind hpi hover,
              map_pid_insertPaper]

theorem countIndexed_ensureIndexed_le (cap n : Nat) (pid : String) (st : IndexState)
    (hnd : List.Nodup (st.papers.map PaperRec.pid))
    (hle : countIndexed st.papers ≤ cap) (hcap : 1 ≤ cap) :
    countIndexed (ensureIndexed cap n pid st).papers ≤ cap := by
  cases hfind : st.papers.find? (fun q => decide (q.pid = pid)) with
  | none => rw [ensureIndexed_not_found cap n pid st hfind]; exact hle
  | some p =>
      have hpmem := List.mem_of_find?_eq_some hfind
      have hppid : p.pid = pid := by simpa using List.find?_some hfind
      by_cases hpi : p.fulltext_indexed = true
      · rw [ensureIndexed_already cap n pid st p hfind hpi]; exact hle
      · rw [Bool.not_eq_true] at hpi
        have hcm : countIndexed (insertPaper n pid st).papers = countIndexed st.papers + 1 :=
          countIndexed_insertPaper n pid st hnd p hpmem hppid hpi
        by_cases hover : cap < countIndexed (insertPaper n pid st).papers
        · rw [ensureIndexed_insert_over cap n pid st p hfind hpi hover]
          have hndm : List.Nodup ((insertPaper n pid st).papers.map PaperRec.pid) := by
            rw [map_pid_insertPaper]; exact hnd
          have h2 : 2 ≤ countIndexed (insertPaper n pid st).papers := by omega
          have hne := evictionCandidates_ne_nil pid (insertPaper n pid st).papers hndm h2
          cases hargmin : List.argmin tsOf
              (evictionCandidates pid (insertPaper n pid st).papers) with
          | none => exact absurd (List.argmin_eq_none.mp hargmin) hne
          | some v =>
              rw [evictOldest_some pid (insertPaper n pid st) v hargmin]
              have hvc := mem_evictionCandidates.mp (List.argmin_mem hargmin)
              obtain ⟨hvm, hvi, _⟩ := hvc
              have hclear := countIndexed_clearIndexed v.pid (insertPaper n pid st).papers
                hndm v hvm rfl hvi
              simp only []
              omega
        · rw [ensureIndexed_insert_fit cap n pid st p hfind hpi hover]
          omega

theorem ensureIndexedSeq_cons (cap n : Nat) (q : String) (qs : List String) (st : IndexState) :
    ensureIndexedSeq cap n (q :: qs) st = ensureIndexedSeq cap n qs (ensureIndexed cap n q st) :=
  rfl

theorem map_pid_ensureIndexedSeq (cap n : Nat) (pids : List String) (st : IndexState) :
    (ensureIndexedSeq cap n pids st).papers.map PaperRec.pid = st.papers.map PaperRec.pid := by
  induction pids generalizing st with
  | nil => rfl
  | cons q qs ih =>
      rw [ensureIndexedSeq_cons, ih, map_pid_ensureIndexed]

/-- C1: after any sequence of `ensure_indexed` calls across distinct papers,
the count of papers with `fulltext_indexed = true` never exceeds the
configured capacity; a single insertion (flagging one more paper indexed)
raises it to at most capacity plus one before eviction runs. -/
theorem C1_cache_bound (cap n : Nat) (pids : List String) (st : IndexState)
    (hnd : List.Nodup (st.papers.map PaperRec.pid))
    (hle : countIndexed st.papers ≤ cap) (hcap : 1 ≤ cap) :
    countIndexed (ensureIndexedSeq cap n pids st).papers ≤ cap ∧
    ∀ q t, countIndexed (markIndexed q t (ensureIndexedSeq cap n pids st).papers) ≤ cap + 1 := by
  have hmain : ∀ (ps : List String) (s : IndexState),
      List.Nodup (s.papers.map PaperRec.pid) → countIndexed s.papers ≤ cap →
      countIndexed (ensureIndexedSeq cap n ps s).papers ≤ cap := by
    intro ps
    induction ps with
    | nil => intro s _ h; exact h
    | cons q qs ih =>
        intro s hnds hles
        rw [ensureIndexedSeq_cons]
        exact ih _ (by rw [map_pid_ensureIndexed]; exact hnds)
          (countIndexed_ensureIndexed_le cap n q s hnds hles hcap)
  refine ⟨hmain pids st hnd hle, ?_⟩
  intro q t
  have hndf : List.Nodup ((ensureIndexedSeq cap n pids st).papers.map PaperRec.pid) := by
    rw [map_pid_ensureIndexedSeq]; exact hnd
  have h1 := countIndexed_markIndexed_le q t (ensureIndexedSeq cap n pids st).papers hndf
  have h2 := hmain pids st hnd hle
  omega

/-- Witness for C1: indexing three distinct papers into a fresh store with
capacity two leaves at most two fully-indexed papers. -/
theorem C1_cache_bound_witness :
    countIndexed (ensureIndexedSeq 2 1 ["a", "b", "c"] freshIndexState).papers ≤ 2 :=
  (C1_cache_bound 2 1 ["a", "b", "c"] freshIndexState (by decide) (by decide) (by decide)).1

/-- C2: when an insertion pushes the count of fully-indexed papers over the
configured capacity, exactly one victim is evicted — the indexed paper with
the oldest `fulltext_indexed_at` among currently-indexed papers, excluding the
paper just inserted — and eviction deletes that paper's chunks, sets
`fulltext_indexed = false` and clears `fulltext_indexed_at`. -/
theorem C2_eviction_correct (cap n : Nat) (pid : String) (st : IndexState) (p : PaperRec)
    (hnd : List.Nodup (st.papers.map PaperRec.pid))
    (hp : p ∈ st.papers) (hppid : p.pid = pid) (hpi : p.fulltext_indexed = false)
    (hover : cap < countIndexed st.papers + 1) (hcap : 1 ≤ cap) :
    evictionOutcome cap n pid st := by
  have hfind := find?_pid_eq pid st.papers hnd p hp hppid
  have hcm : countIndexed (insertPaper n pid st).papers = countIndexed st.papers + 1 :=
    countIndexed_insertPaper n pid st hnd p hp hppid hpi
  have hover2 : cap < countIndexed (insertPaper n pid st).papers := by omega
  have heq := ensureIndexed_insert_over cap n pid st p hfind hpi hover2
  have hndm : List.Nodup ((insertPaper n pid st).papers.map PaperRec.pid) := by
    rw [map_pid_insertPaper]; exact hnd
  have h2 : 2 ≤ countIndexed (insertPaper n pid st).papers := by omega
  have hne := evictionCandidates_ne_nil pid (insertPaper n pid st).papers hndm h2
  cases hargmin : List.argmin tsOf (evictionCandidates pid (insertPaper n pid st).papers) with
  | none => exact absurd (List.argmin_eq_none.mp hargmin) hne
  | some v =>
      obtain ⟨hvm, hvi, hvne⟩ := mem_evictionCandidates.mp (List.argmin_mem hargmin)
      have hvst : v ∈ st.papers := mem_of_mem_markIndexed hvm hvne
      unfold evictionOutcome
      refine ⟨v, hvst, hvi, hvne, ?_, ?_, ?_, ?_, ?_⟩
      · intro q hq hqi hqne
        have hqm : q ∈ (insertPaper n pid st).papers := mem_markIndexed_of_mem hq hqne
        exact List.le_of_mem_argmin
          (mem_evictionCandidates.mpr ⟨hqm, hqi, hqne⟩) hargmin
      · rw [heq, evictOldest_some pid (insertPaper n pid st) v hargmin]
        rfl
      · intro r hr hrv
        rw [heq, evictOldest_some pid (insertPaper n pid st) v hargmin] at hr
        exact clearIndexed_fields hr hrv
      · intro c hc
        rw [heq, evictOldest_some pid (insertPaper n pid st) v hargmin] at hc
        have hm := List.mem_filter.mp hc
        simpa using hm.2
      · rw [heq, evictOldest_some pid (insertPaper n pid st) v hargmin]
        have hclear := countIndexed_clearIndexed v.pid (insertPaper n pid st).papers
          hndm v hvm rfl hvi
        simp only []
        omega

/-- Witness for C2: inserting paper "c" into a two-paper-capacity store holding
"a" (stamped 0) and "b" (stamped 1) evicts the oldest victim. -/
theorem C2_eviction_correct_witness : evictionOutcome 2 1 "c" fullIndexState :=
  C2_eviction_correct 2 1 "c" fullIndexState
    { pid := "c", fulltext_indexed := false, fulltext_indexed_at := none }
    (by decide) (by decide) rfl rfl (by decide) (by decide)

theorem sorted_insertionSort_chunks (index : List Chunk) :
    List.Sorted (fun a b : Chunk => b.score ≤ a.score)
      (List.insertionSort (fun a b => b.score ≤ a.score) index) := by
  haveI : IsTotal Chunk (fun a b => b.score ≤ a.score) := ⟨fun a b => le_total b.score a.score⟩
  haveI : IsTrans Chunk (fun a b => b.score ≤ a.score) :=
    ⟨fun _ _ _ h1 h2 => le_trans h2 h1⟩
  exact List.sorted_insertionSort _ index

/-- C3: the Fine Retriever output is the `broad_k` highest-similarity chunks
over the whole fine index, filtered to the candidate papers with order
preserved and truncated to `final_k`; every output chunk's paper is a
candidate, and when fewer than `final_k` chunks survive the filter, all the
survivors are returned with no padding and no error. -/
theorem C3_fine_retrieval (index : List Chunk) (candidate_ids : List String)
    (broad_k final_k : Nat) :
    (∀ c ∈ fineRetrieve index candidate_ids broad_k final_k, c.arxiv_id ∈ candidate_ids) ∧
    List.Sublist (fineRetrieve index candidate_ids broad_k final_k)
      (retrieve_chunks index broad_k) ∧
    (fineRetrieve index candidate_ids broad_k final_k).length ≤ final_k ∧
    (∀ a ∈ retrieve_chunks index broad_k, ∀ b ∈ index,
        b ∉ retrieve_chunks index broad_k → b.score ≤ a.score) ∧
    ((surviving_chunks index candidate_ids broad_k).length < final_k →
      fineRetrieve index candidate_ids broad_k final_k =
        surviving_chunks index candidate_ids broad_k) := by
  refine ⟨?_, ?_, ?_, ?_, ?_⟩
  · intro c hc
    have h1 : c ∈ surviving_chunks index candidate_ids broad_k :=
      List.take_subset final_k _ hc
    have h2 := List.mem_filter.mp h1
    simpa using h2.2
  · exact (List.take_sublist final_k _).trans (List.filter_sublist _)
  · exact List.length_take_le final_k _
  · intro a ha b hb hnb
    have hsort := sorted_insertionSort_chunks index
    have hbs : b ∈ List.insertionSort (fun a b : Chunk => b.score ≤ a.score) index :=
      (List.perm_insertionSort _ index).mem_iff.mpr hb
    have hsplit := List.take_append_drop broad_k
      (List.insertionSort (fun a b : Chunk => b.score ≤ a.score) index)
    have hbd : b ∈ List.drop broad_k
        (List.insertionSort (fun a b : Chunk => b.score ≤ a.score) index) := by
      have hmem : b ∈ List.take broad_k
            (List.insertionSort (fun a b : Chunk => b.score ≤ a.score) index) ++
          List.drop broad_k (List.insertionSort (fun a b : Chunk => b.score ≤ a.score) index) := by
        rw [hsplit]; exact hbs
      rcases List.mem_append.mp hmem with h | h
      · exact absurd h hnb
      · exact h
    have hpw : List.Pairwise (fun a b : Chunk => b.score ≤ a.score)
        (List.take broad_k (List.insertionSort (fun a b : Chunk => b.score ≤ a.score) index) ++
         List.drop broad_k (List.insertionSort (fun a b : Chunk => b.score ≤ a.score) index)) := by
      rw [hsplit]; exact hsort
    exact (List.pairwise_append.mp hpw).2.2 a ha b hbd
  · intro hlt
    exact List.take_of_length_le (le_of_lt hlt)

/-- Witness for C3 on a concrete index: the top surviving chunk belongs to a
candidate paper, and with only two survivors and `final_k = 8` all survivors
are returned. -/
theorem C3_fine_retrieval_witness :
    ({ chunk_id := "p1_chunk0", arxiv_id := "p1", text := "alpha", score := 9 } : Chunk).arxiv_id
        ∈ ["p1"] ∧
    fineRetrieve exampleFineIndex ["p1"] 3 8 = surviving_chunks exampleFineIndex ["p1"] 3 :=
  ⟨(C3_fine_retrieval exampleFineIndex ["p1"] 3 8).1 _ (by decide),
   (C3_fine_retrieval exampleFineIndex ["p1"] 3 8).2.2.2.2 (by decide)⟩

/-- C4: the orchestrator returns the Coarse Retriever result as the cited
papers and the Fine Retriever result as the cited chunks, independently of the
completion answer; when every candidate paper fails indexing the operation
still returns the full coarse paper list with an empty chunk list. -/
theorem C4_orchestrator_outputs (coarse : List PaperHit) (indexed_ok : String → Bool)
    (index : List Chunk) (broad_k final_k : Nat) (generate generate2 : List Chunk → String) :
    (answer_question coarse indexed_ok index broad_k final_k generate).papers = coarse ∧
    (answer_question coarse indexed_ok index broad_k final_k generate).chunks =
      fineRetrieve index
        ((coarse.filter (fun h => indexed_ok h.arxiv_id)).map PaperHit.arxiv_id)
        broad_k final_k ∧
    (answer_question coarse indexed_ok index broad_k final_k generate).papers =
      (answer_question coarse indexed_ok index broad_k final_k generate2).papers ∧
    (answer_question coarse indexed_ok index broad_k final_k generate).chunks =
      (answer_question coarse indexed_ok index broad_k final_k generate2).chunks ∧
    ((∀ h ∈ coarse, indexed_ok h.arxiv_id = false) →
      (answer_question coarse indexed_ok index broad_k final_k generate).papers = coarse ∧
      (answer_question coarse indexed_ok index broad_k final_k generate).chunks = []) := by
  refine ⟨rfl, rfl, rfl, rfl, ?_⟩
  intro hall
  have hfl : coarse.filter (fun h => indexed_ok h.arxiv_id) = [] := by
    rw [List.filter_eq_nil_iff]
    intro h hh
    simp [hall h hh]
  refine ⟨rfl, ?_⟩
  simp [answer_question, hfl, fineRetrieve, surviving_chunks]

/-- Witness for C4: with a single coarse paper whose indexing fails, the
orchestrator still returns that paper and an empty chunk list. -/
theorem C4_orchestrator_outputs_witness :
    (answer_question [{ arxiv_id := "p1", title := "T", score := 3 }] (fun _ => false)
        exampleFineIndex 100 8 (fun _ => "no grounded evidence")).papers =
      [{ arxiv_id := "p1", title := "T", score := 3 }] ∧
    (answer_question [{ arxiv_id := "p1", title := "T", score := 3 }] (fun _ => false)
        exampleFineIndex 100 8 (fun _ => "no grounded evidence")).chunks = [] :=
  (C4_orchestrator_outputs [{ arxiv_id := "p1", title := "T", score := 3 }] (fun _ => false)
      exampleFineIndex 100 8 (fun _ => "no grounded evidence") (fun _ => "other")).2.2.2.2
    (fun _ _ => rfl)

theorem chunkGo_spec (maxLen overlap L : Nat) :
    ∀ fuel s,
      (∀ pr ∈ chunkGo maxLen overlap L fuel s, pr.2 - pr.1 ≤ maxLen) ∧
      List.Chain' (fun a b : Nat × Nat => b.1 = a.2 - overlap)
        (chunkGo maxLen overlap L fuel s) ∧
      (∀ x ∈ (chunkGo maxLen overlap L fuel s).head?, x.1 = s) := by
  intro fuel
  induction fuel with
  | zero => intro s; exact ⟨by simp [chunkGo], by simp [chunkGo], by simp [chunkGo]⟩
  | succ fuel ih =>
      intro s
      by_cases hsL : s < L
      · by_cases hin : s + maxLen < L
        · have hrec := ih (s + maxLen - overlap)
          rw [show chunkGo maxLen overlap L (fuel + 1) s =
                (s, s + maxLen) :: chunkGo maxLen overlap L fuel (s + maxLen - overlap) by
                simp [chunkGo, hsL, hin]]
          refine ⟨?_, ?_, ?_⟩
          · intro pr hpr
            rcases List.mem_cons.mp hpr with rfl | h
            · simp
            · exact hrec.1 pr h
          · rw [List.chain'_cons']
            refine ⟨?_, hrec.2.1⟩
            intro b hb
            have hhead := hrec.2.2 b hb
            simp [hhead]
          · intro x hx
            simp at hx
            subst hx
            rfl
        · rw [show chunkGo maxLen overlap L (fuel + 1) s = [(s, L)] by
                simp [chunkGo, hsL, hin]]
          refine ⟨?_, by simp, ?_⟩
          · intro pr hpr
            simp at hpr
            subst hpr
            simp
            omega
          · intro x hx
            simp at hx
            subst hx
            rfl
      · rw [show chunkGo maxLen overlap L (fuel + 1) s = [] by simp [chunkGo, hsL]]
        exact ⟨by simp, by simp, by simp⟩

/-- C5: every chunk span is at most `maxLen` characters long, and each chunk
after the first starts exactly `overlap` characters before the previous chunk
ends. -/
theorem C5_chunking (maxLen overlap L : Nat) :
    (∀ pr ∈ chunkSpans maxLen overlap L, pr.2 - pr.1 ≤ maxLen) ∧
    List.Chain' (fun a b : Nat × Nat => b.1 = a.2 - overlap) (chunkSpans maxLen overlap L) := by
  have h := chunkGo_spec maxLen overlap L (L + 1) 0
  exact ⟨h.1, h.2.1⟩

/-- Witness for C5: with maximum length 5 and overlap 2 on a text of length 9
the spans are [(0,5), (3,8), (6,9)]; the middle span is in the list and is at
most 5 characters long. -/
theorem C5_chunking_witness :
    ((3, 8) : Nat × Nat) ∈ chunkSpans 5 2 9 ∧ ((3, 8) : Nat × Nat).2 - (3, 8).1 ≤ 5 :=
  ⟨by decide, (C5_chunking 5 2 9).1 (3, 8) (by decide)⟩

/-- C6: a failed query request is terminal and surfaced: `handleSend` appends
exactly one assistant message reporting the error after the user message,
issues exactly one request for the question, and resets the loading flag to
false. -/
theorem C6_error_terminal (st : ChatState)
    (htrim : trimmedEmpty st.input = false) (hload : st.loading = false) :
    handleSend st none =
      ({ messages := st.messages ++
          [{ role := Role.user, content := st.input, papers := none, chunks := none },
           { role := Role.assistant, content := errorText, papers := none, chunks := none }],
         input := "", loading := false }, 1) := by
  have hcond : ¬ (trimmedEmpty st.input = true ∨ st.loading = true) := by
    simp [htrim, hload]
  simp [handleSend, hcond]

/-- Witness for C6 from an idle chat state with input "hi". -/
theorem C6_error_terminal_witness :
    handleSend { messages := [], input := "hi", loading := false } none =
      ({ messages :=
          [{ role := Role.user, content := "hi", papers := none, chunks := none },
           { role := Role.assistant, content := errorText, papers := none, chunks := none }],
         input := "", loading := false }, 1) :=
  C6_error_terminal { messages := [], input := "hi", loading := false } (by decide) rfl

/-- C7: both status operations report `in_sync = true` exactly when the two
counts they compare are equal, and neither mutates any state. -/
theorem C7_status_pure (st : BackendCounts) :
    ((coarse_status st).1.in_sync = true ↔ st.mongodb_count = st.coarse_chroma_count) ∧
    ((fine_status st).1.in_sync = true ↔ st.fine_chunk_count = st.fulltext_indexed_papers) ∧
    (coarse_status st).2 = st ∧ (fine_status st).2 = st := by
  refine ⟨?_, ?_, rfl, rfl⟩ <;> simp [coarse_status, fine_status]

/-- Witness for C7 at equal coarse counts and unequal fine counts. -/
theorem C7_status_pure_witness :
    (coarse_status exampleCounts).1.in_sync = true ∧
    ¬ (fine_status exampleCounts).1.in_sync = true :=
  ⟨(C7_status_pure exampleCounts).1.mpr rfl,
   fun h => by have hx := (C7_status_pure exampleCounts).2.1.mp h; simp [exampleCounts] at hx⟩

/-- C8 as stated fails on `performSearch`: with a request already in flight
(`loading = true`) and a non-empty query, `performSearch` still issues a
request instead of returning without sending one. -/
theorem C8_counterexample :
    inFlightSearchState.loading = true ∧
    (performSearch inFlightSearchState none).2 = 1 ∧
    ¬ performSearch inFlightSearchState none = (inFlightSearchState, 0) := by
  refine ⟨rfl, by decide, by decide⟩

/-- C8 amended: with empty trimmed input both `handleSend` and `performSearch`
return without sending any request and leave the component state unchanged;
the in-flight guard holds for `handleSend` only. -/
theorem C8_empty_query_guards (st : ChatState) (r : Option QueryResponse)
    (st2 : SearchState) (r2 : Option SearchResponse) :
    (trimmedEmpty st.input = true → handleSend st r = (st, 0)) ∧
    (st.loading = true → handleSend st r = (st, 0)) ∧
    (trimmedEmpty st2.query = true → performSearch st2 r2 = (st2, 0)) := by
  refine ⟨?_, ?_, ?_⟩
  · intro h
    simp [handleSend, h]
  · intro h
    simp [handleSend, h]
  · intro h
    simp [performSearch, h]

/-- Witness for the amended C8 on concrete blank-input and in-flight states. -/
theorem C8_empty_query_guards_witness :
    handleSend blankChatState none = (blankChatState, 0) ∧
    handleSend busyChatState none = (busyChatState, 0) ∧
    performSearch blankSearchState none = (blankSearchState, 0) :=
  ⟨(C8_empty_query_guards blankChatState none blankSearchState none).1 (by decide),
   (C8_empty_query_guards busyChatState none blankSearchState none).2.1 rfl,
   (C8_empty_query_guards blankChatState none blankSearchState none).2.2 (by decide)⟩

/-- C9: for a non-empty chunk list the carousel navigation stays in range,
wraps around at both ends, and `handlePrev` undoes `handleNext`. -/
theorem C9_carousel_navigation (len i : Nat) (hlen : 0 < len) (hi : i < len) :
    handlePrev len (handleNext len i) = i ∧
    handleNext len i < len ∧
    handlePrev len i < len ∧
    handleNext len (len - 1) = 0 ∧
    handlePrev len 0 = len - 1 := by
  unfold handleNext handlePrev
  refine ⟨?_, ?_, ?_, ?_, ?_⟩ <;> split_ifs <;> omega

/-- Witness for C9 at a three-chunk carousel on its last index. -/
theorem C9_carousel_navigation_witness :
    handlePrev 3 (handleNext 3 2) = 2 ∧
    handleNext 3 2 < 3 ∧
    handlePrev 3 2 < 3 ∧
    handleNext 3 (3 - 1) = 0 ∧
    handlePrev 3 0 = 3 - 1 :=
  C9_carousel_navigation 3 2 (by decide) (by decide)

/-- C10: `getFulltextColor` and `getFulltextIcon` classify every count into the
same three disjoint exhaustive bands — green with CheckCircle below 50, yellow
with AlertTriangle from 50 to 65, red with XCircle above 65 — so the color and
icon always agree. -/
theorem C10_band_agreement (count : Nat) :
    getFulltextColor count = bandColorClass (claimBand count) ∧
    getFulltextIcon count = bandIcon (claimBand count) ∧
    (claimBand count = StatusBand.green ↔ count < 50) ∧
    (claimBand count = StatusBand.yellow ↔ 50 ≤ count ∧ count ≤ 65) ∧
    (claimBand count = StatusBand.red ↔ 65 < count) := by
  unfold getFulltextColor getFulltextIcon claimBand bandColorClass bandIcon
  by_cases h1 : count < 50
  · simp only [if_pos h1]
    simp
    omega
  · by_cases h2 : count ≤ 65
    · simp only [if_neg h1, if_pos h2, if_pos (show 50 ≤ count ∧ count ≤ 65 by omega)]
      simp
      omega
    · simp only [if_neg h1, if_neg h2,
        if_neg (show ¬ (50 ≤ count ∧ count ≤ 65) by omega)]
      simp
      omega

/-- Witness for C10 on the yellow band boundary. -/
theorem C10_band_agreement_witness : claimBand 50 = StatusBand.yellow :=
  (C10_band_agreement 50).2.2.2.1.mpr (by decide)

end BadgerScholar
